import Mathlib

/-!
Verification of the deterministic core of the ADGM corporate-agent repository:
the keyword classifier and process detector (src/doc_parser.py), the red-flag
analyzer (src/redfalg_checker.py), and the structured-report builder
(src/app.py).  Text is embedded as `List Char` (one entry per Python string
character); Python regular-expression scanning is embedded by a small regex
AST covering exactly the constructs the source patterns use, with a
backtracking matcher mirroring CPython semantics (alternatives in priority
order, greedy quantifiers, leftmost non-overlapping `finditer` scan).
`str.lower` is embedded as per-character `Char.toLower`, which agrees with
CPython on the ASCII texts the patterns are built from.
-/

/-- Per-character lowering, embedding Python `str.lower()`. -/
def lowerStr (s : List Char) : List Char := s.map Char.toLower

/-- The whitespace class of Python `\s` (ASCII part). -/
def isWS (c : Char) : Bool :=
  c = ' ' || c = '\t' || c = '\n' || c = '\r' || c = '\x0b' || c = '\x0c'

/-- The class of Python `.` (any character except newline). -/
def isNotNL (c : Char) : Bool := c != '\n'

/-- Python substring test `needle in haystack` (prefix at some position). -/
def isSubIn (needle : List Char) : List Char → Bool
  | [] => needle.isEmpty
  | s@(_ :: rest) => needle.isPrefixOf s || isSubIn needle rest

/-- Ordered-dictionary lookup (Python `dict` access keyed by strings). -/
def dlookup {α : Type} : List (String × α) → String → Option α
  | [], _ => none
  | (k, v) :: rest, key => if k = key then some v else dlookup rest key

/-- Python `max(h :: t, key := f)`: fold keeping the current element unless a
strictly greater key appears, so ties are won by the earliest element. -/
def pyMax {α β : Type} [LinearOrder β] (f : α → β) (h : α) (t : List α) : α :=
  t.foldl (fun a x => if f a < f x then x else a) h

theorem pyMax_spec {α β : Type} [LinearOrder β] (f : α → β) :
    ∀ (t : List α) (h : α), ∃ l₁ l₂, h :: t = l₁ ++ pyMax f h t :: l₂ ∧
      (∀ y ∈ h :: t, f y ≤ f (pyMax f h t)) ∧ (∀ y ∈ l₁, f y < f (pyMax f h t)) := by
  intro t
  induction t with
  | nil =>
      intro h
      refine ⟨[], [], rfl, ?_, by simp⟩
      intro y hy
      simp only [List.mem_singleton] at hy
      simp [hy, pyMax]
  | cons x t ih =>
      intro h
      have hfold : pyMax f h (x :: t) = pyMax f (if f h < f x then x else h) t := rfl
      by_cases hc : f h < f x
      · rw [hfold, if_pos hc]
        obtain ⟨l₁, l₂, hdec, hmax, hstrict⟩ := ih x
        have hxle : f x ≤ f (pyMax f x t) := hmax x (List.mem_cons_self _ _)
        refine ⟨h :: l₁, l₂, ?_, ?_, ?_⟩
        · rw [List.cons_append, ← hdec]
        · intro y hy
          rcases List.mem_cons.mp hy with rfl | hy'
          · exact le_of_lt (lt_of_lt_of_le hc hxle)
          · exact hmax y hy'
        · intro y hy
          rcases List.mem_cons.mp hy with rfl | hy'
          · exact lt_of_lt_of_le hc hxle
          · exact hstrict y hy'
      · rw [hfold, if_neg hc]
        have hxh : f x ≤ f h := le_of_not_lt hc
        obtain ⟨l₁, l₂, hdec, hmax, hstrict⟩ := ih h
        have hhle : f h ≤ f (pyMax f h t) := hmax h (List.mem_cons_self _ _)
        cases l₁ with
        | nil =>
            simp only [List.nil_append] at hdec
            have hh : h = pyMax f h t := (List.cons.injEq _ _ _ _).mp hdec |>.1
            have ht : t = l₂ := (List.cons.injEq _ _ _ _).mp hdec |>.2
            refine ⟨[], x :: t, ?_, ?_, by simp⟩
            · rw [List.nil_append, ← hh]
            · intro y hy
              rcases List.mem_cons.mp hy with rfl | hy'
              · exact hhle
              · rcases List.mem_cons.mp hy' with rfl | hy''
                · exact le_trans hxh hhle
                · exact hmax y (List.mem_cons_of_mem _ hy'')
        | cons a l₁' =>
            simp only [List.cons_append] at hdec
            have ha : h = a := (List.cons.injEq _ _ _ _).mp hdec |>.1
            have ht : t = l₁' ++ pyMax f h t :: l₂ := (List.cons.injEq _ _ _ _).mp hdec |>.2
            have hhlt : f h < f (pyMax f h t) := by
              have := hstrict a (List.mem_cons_self _ _)
              rw [← ha] at this
              exact this
            refine ⟨h :: x :: l₁', l₂, ?_, ?_, ?_⟩
            · rw [List.cons_append, List.cons_append, ← ht]
            · intro y hy
              rcases List.mem_cons.mp hy with rfl | hy'
              · exact hhle
              · rcases List.mem_cons.mp hy' with rfl | hy''
                · exact le_trans hxh hhle
                · exact hmax y (List.mem_cons_of_mem _ (ht ▸ hy''))
            · intro y hy
              rcases List.mem_cons.mp hy with rfl | hy'
              · exact hhlt
              · rcases List.mem_cons.mp hy' with rfl | hy''
                · exact lt_of_le_of_lt hxh hhlt
                · exact hstrict y (List.mem_cons_of_mem _ hy'')

/-!
## Regex embedding

A small AST covering exactly the constructs used by the patterns in
src/redfalg_checker.py: case-insensitive literal characters, concatenation,
`?` on a single character, and the single-character-class quantifiers
`\s+`, `\d+`, `_+` and `.*`.
-/

/-- Regex AST.  `cls` is a single-character class; `starCls`/`plusCls` are
greedy `*`/`+` over a character class (the only quantified subterms that the
source patterns contain). -/
inductive RE : Type where
  | eps : RE
  | cls : (Char → Bool) → RE
  | seq : RE → RE → RE
  | opt : RE → RE
  | starCls : (Char → Bool) → RE
  | plusCls : (Char → Bool) → RE

/-- Candidate match lengths of a regex at the head of `s`, in CPython
backtracking priority order (greedy quantifiers longest-first, `?` preferring
presence).  The match CPython reports is the head of this list. -/
def reMatches : RE → List Char → List Nat
  | .eps, _ => [0]
  | .cls p, s =>
      match s with
      | [] => []
      | a :: _ => if p a then [1] else []
  | .seq r1 r2, s =>
      (reMatches r1 s).flatMap (fun n => (reMatches r2 (s.drop n)).map (fun m => n + m))
  | .opt r, s => reMatches r s ++ [0]
  | .starCls p, s => (List.range ((s.takeWhile p).length + 1)).reverse
  | .plusCls p, s => ((List.range ((s.takeWhile p).length)).reverse).map (fun k => k + 1)

/-- Declarative semantics: `RMatch r l` says the regex `r` matches exactly
the character list `l`. -/
inductive RMatch : RE → List Char → Prop where
  | eps : RMatch .eps []
  | cls {p : Char → Bool} {c : Char} : p c = true → RMatch (.cls p) [c]
  | seq {r1 r2 : RE} {l1 l2 : List Char} :
      RMatch r1 l1 → RMatch r2 l2 → RMatch (.seq r1 r2) (l1 ++ l2)
  | optSome {r : RE} {l : List Char} : RMatch r l → RMatch (.opt r) l
  | optNone {r : RE} : RMatch (.opt r) []
  | star {p : Char → Bool} {l : List Char} :
      (∀ c ∈ l, p c = true) → RMatch (.starCls p) l
  | plus {p : Char → Bool} {l : List Char} :
      l ≠ [] → (∀ c ∈ l, p c = true) → RMatch (.plusCls p) l

theorem length_takeWhile_le (p : Char → Bool) (l : List Char) :
    (l.takeWhile p).length ≤ l.length := by
  induction l with
  | nil => simp
  | cons a l ih =>
      by_cases h : p a = true
      · simp only [List.takeWhile_cons, h, if_true, List.length_cons]
        omega
      · simp only [List.takeWhile_cons, h, if_false]
        simp

theorem take_takeWhile_of_le (p : Char → Bool) :
    ∀ (l : List Char) (n : Nat), n ≤ (l.takeWhile p).length →
      l.take n = (l.takeWhile p).take n := by
  intro l
  induction l with
  | nil => intro n _; simp
  | cons a l ih =>
      intro n hn
      by_cases h : p a = true
      · simp only [List.takeWhile_cons, h, if_true] at hn ⊢
        cases n with
        | zero => simp
        | succ m =>
            simp only [List.take_succ_cons]
            rw [ih m (by simpa using hn)]
      · simp [List.takeWhile_cons, h] at hn
        subst hn
        simp

theorem mem_take_takeWhile (p : Char → Bool) {l : List Char} {n : Nat}
    (hn : n ≤ (l.takeWhile p).length) : ∀ c ∈ l.take n, p c = true := by
  intro c hc
  rw [take_takeWhile_of_le p l n hn] at hc
  exact List.mem_takeWhile_imp (List.mem_of_mem_take hc)

theorem takeWhile_append_of_all (p : Char → Bool) :
    ∀ (l rest : List Char), (∀ c ∈ l, p c = true) →
      (l ++ rest).takeWhile p = l ++ rest.takeWhile p := by
  intro l
  induction l with
  | nil => intro rest _; simp
  | cons a l ih =>
      intro rest hall
      have ha : p a = true := hall a (List.mem_cons_self _ _)
      simp only [List.cons_append, List.takeWhile_cons, ha, if_true]
      rw [ih rest (fun c hc => hall c (List.mem_cons_of_mem _ hc))]

/-- Soundness of the matcher: every reported candidate length is within the
text and the corresponding prefix is a semantic match. -/
theorem reMatches_sound : ∀ (r : RE) (s : List Char) (n : Nat),
    n ∈ reMatches r s → n ≤ s.length ∧ RMatch r (s.take n) := by
  intro r
  induction r with
  | eps =>
      intro s n hn
      simp only [reMatches, List.mem_singleton] at hn
      subst hn
      exact ⟨Nat.zero_le _, by simpa using RMatch.eps⟩
  | cls p =>
      intro s n hn
      cases s with
      | nil => simp [reMatches] at hn
      | cons a rest =>
          simp only [reMatches] at hn
          by_cases h : p a = true
          · rw [if_pos h] at hn
            simp only [List.mem_singleton] at hn
            subst hn
            exact ⟨by simp, by simpa using RMatch.cls h⟩
          · rw [if_neg h] at hn
            simp at hn
  | seq r1 r2 ih1 ih2 =>
      intro s n hn
      simp only [reMatches, List.mem_flatMap, List.mem_map] at hn
      obtain ⟨n1, hn1, m, hm, rfl⟩ := hn
      obtain ⟨hle1, hr1⟩ := ih1 s n1 hn1
      obtain ⟨hle2, hr2⟩ := ih2 (s.drop n1) m hm
      constructor
      · have := s.length_drop n1
        omega
      · rw [List.take_add]
        exact RMatch.seq hr1 hr2
  | opt r ih =>
      intro s n hn
      simp only [reMatches, List.mem_append, List.mem_singleton] at hn
      rcases hn with hn | rfl
      · obtain ⟨hle, hr⟩ := ih s n hn
        exact ⟨hle, RMatch.optSome hr⟩
      · exact ⟨Nat.zero_le _, by simpa using RMatch.optNone⟩
  | starCls p =>
      intro s n hn
      simp only [reMatches, List.mem_reverse, List.mem_range] at hn
      have hn' : n ≤ (s.takeWhile p).length := by omega
      refine ⟨le_trans hn' (length_takeWhile_le p s), ?_⟩
      exact RMatch.star (mem_take_takeWhile p hn')
  | plusCls p =>
      intro s n hn
      simp only [reMatches, List.mem_map, List.mem_reverse, List.mem_range] at hn
      obtain ⟨k, hk, rfl⟩ := hn
      have hn' : k + 1 ≤ (s.takeWhile p).length := by omega
      refine ⟨le_trans hn' (length_takeWhile_le p s), ?_⟩
      refine RMatch.plus ?_ (mem_take_takeWhile p hn')
      have hlen : (s.take (k + 1)).length = k + 1 := by
        rw [List.length_take]
        have := le_trans hn' (length_takeWhile_le p s)
        omega
      intro hcontra
      rw [hcontra] at hlen
      simp at hlen

/-- Completeness of the matcher: a semantic match of `l` is reported as the
candidate `l.length` when the text starts with `l`. -/
theorem reMatches_complete : ∀ {r : RE} {l : List Char}, RMatch r l →
    ∀ rest, l.length ∈ reMatches r (l ++ rest) := by
  intro r l h
  induction h with
  | eps => intro rest; simp [reMatches]
  | cls hp =>
      intro rest
      simp only [List.cons_append, List.nil_append, reMatches]
      rw [if_pos hp]
      simp
  | seq h1 h2 ih1 ih2 =>
      rename_i r1 r2 l1 l2
      intro rest
      simp only [reMatches, List.mem_flatMap, List.mem_map]
      refine ⟨l1.length, ?_, l2.length, ?_, by simp⟩
      · have := ih1 (l2 ++ rest)
        simpa [List.append_assoc] using this
      · rw [List.append_assoc, List.drop_left]
        exact ih2 rest
  | optSome h ih =>
      intro rest
      simp only [reMatches, List.mem_append]
      exact Or.inl (ih rest)
  | optNone =>
      intro rest
      simp [reMatches]
  | star hall =>
      rename_i p l
      intro rest
      simp only [reMatches, List.mem_reverse, List.mem_range]
      rw [takeWhile_append_of_all p l rest hall]
      simp only [List.length_append]
      omega
  | plus hne hall =>
      rename_i p l
      intro rest
      simp only [reMatches, List.mem_map, List.mem_reverse, List.mem_range]
      refine ⟨l.length - 1, ?_, ?_⟩
      · rw [takeWhile_append_of_all p l rest hall]
        simp only [List.length_append]
        have : 1 ≤ l.length := List.length_pos.mpr hne
        omega
      · have : 1 ≤ l.length := List.length_pos.mpr hne
        omega

/-- Python `re.search`: scan every start position (including the end of the
text) for a match; returns whether any position matches. -/
def reSearch (r : RE) : List Char → Bool
  | [] => !(reMatches r []).isEmpty
  | s@(_ :: rest) => !(reMatches r s).isEmpty || reSearch r rest

theorem reSearch_iff (r : RE) : ∀ (s : List Char),
    reSearch r s = true ↔ ∃ a n, RMatch r ((s.drop a).take n) := by
  intro s
  induction s with
  | nil =>
      simp only [reSearch, Bool.not_eq_true', List.isEmpty_eq_false_iff_exists_mem]
      constructor
      · intro h
        obtain ⟨n, hn⟩ := h
        obtain ⟨_, hm⟩ := reMatches_sound r [] n hn
        exact ⟨0, n, by simpa using hm⟩
      · rintro ⟨a, n, hm⟩
        simp only [List.drop_nil, List.take_nil] at hm
        have := reMatches_complete hm []
        simp only [List.nil_append, List.length_nil] at this
        exact ⟨0, this⟩
  | cons c rest ih =>
      simp only [reSearch, Bool.or_eq_true, Bool.not_eq_true',
        List.isEmpty_eq_false_iff_exists_mem]
      constructor
      · rintro (⟨n, hn⟩ | h)
        · obtain ⟨_, hm⟩ := reMatches_sound r (c :: rest) n hn
          exact ⟨0, n, by simpa using hm⟩
        · obtain ⟨a, n, hm⟩ := ih.mp h
          exact ⟨a + 1, n, by simpa using hm⟩
      · rintro ⟨a, n, hm⟩
        cases a with
        | zero =>
            left
            simp only [List.drop_zero] at hm
            have := reMatches_complete hm ((c :: rest).drop n)
            rw [List.take_append_drop] at this
            exact ⟨_, this⟩
        | succ a' =>
            right
            exact ih.mpr ⟨a', n, by simpa using hm⟩

/-- Python `re.finditer`: emit the chosen match at the leftmost matching
position, continue after its end (advancing one character on a zero-width
match or a failure), collecting `(start, end)` offset pairs. -/
def findIterAux (r : RE) : Nat → List Char → Nat → List (Nat × Nat)
  | 0, _, _ => []
  | _ + 1, [], pos =>
      match (reMatches r []).head? with
      | some n => [(pos, pos + n)]
      | none => []
  | fuel + 1, s@(_ :: rest), pos =>
      match (reMatches r s).head? with
      | some n => (pos, pos + n) :: findIterAux r fuel (s.drop (max n 1)) (pos + max n 1)
      | none => findIterAux r fuel rest (pos + 1)

def findIter (r : RE) (s : List Char) : List (Nat × Nat) :=
  findIterAux r (s.length + 1) s 0

theorem head?_mem {α : Type} {l : List α} {a : α} (h : l.head? = some a) : a ∈ l := by
  cases l with
  | nil => simp at h
  | cons x xs =>
      simp only [List.head?_cons, Option.some.injEq] at h
      simp [h]

/-- If some position in `s` (within bounds) has a match, `finditer` reports
at least one span (possibly an earlier one). -/
theorem findIterAux_ne_nil (r : RE) : ∀ (fuel : Nat) (s : List Char) (pos : Nat),
    s.length + 1 ≤ fuel → (∃ j, j ≤ s.length ∧ reMatches r (s.drop j) ≠ []) →
    findIterAux r fuel s pos ≠ [] := by
  intro fuel
  induction fuel with
  | zero => intro s pos h; omega
  | succ fuel ih =>
      intro s pos hfuel ⟨j, hj, hne⟩
      cases s with
      | nil =>
          simp only [List.length_nil, Nat.le_zero] at hj
          subst hj
          simp only [List.drop_nil] at hne
          cases hh : (reMatches r []).head? with
          | none =>
              rw [List.head?_eq_none_iff] at hh
              exact absurd hh hne
          | some n => simp [findIterAux, hh]
      | cons c rest =>
          cases hh : (reMatches r (c :: rest)).head? with
          | some n => simp [findIterAux, hh]
          | none =>
              have hnil : reMatches r (c :: rest) = [] := List.head?_eq_none_iff.mp hh
              cases j with
              | zero =>
                  simp only [List.drop_zero] at hne
                  exact absurd hnil hne
              | succ j' =>
                  simp only [findIterAux, hh]
                  refine ih rest (pos + 1) ?_ ⟨j', ?_, ?_⟩
                  · simp only [List.length_cons] at hfuel
                    omega
                  · simp only [List.length_cons] at hj
                    omega
                  · simpa using hne

/-- Every span reported by `finditer` starts at or after the scan position and
is a candidate match of the pattern at its start offset. -/
theorem findIterAux_spans (r : RE) : ∀ (fuel : Nat) (s : List Char) (pos a b : Nat),
    (a, b) ∈ findIterAux r fuel s pos →
    ∃ n, b = a + n ∧ pos ≤ a ∧ n ∈ reMatches r (s.drop (a - pos)) := by
  intro fuel
  induction fuel with
  | zero => intro s pos a b h; simp [findIterAux] at h
  | succ fuel ih =>
      intro s pos a b h
      cases s with
      | nil =>
          cases hh : (reMatches r []).head? with
          | none => simp [findIterAux, hh] at h
          | some n =>
              simp only [findIterAux, hh, List.mem_singleton, Prod.mk.injEq] at h
              obtain ⟨rfl, rfl⟩ := h
              exact ⟨n, rfl, le_refl _, by simpa using head?_mem hh⟩
      | cons c rest =>
          cases hh : (reMatches r (c :: rest)).head? with
          | some n =>
              simp only [findIterAux, hh, List.mem_cons, Prod.mk.injEq] at h
              rcases h with ⟨rfl, rfl⟩ | h
              · exact ⟨n, rfl, le_refl _, by simpa using head?_mem hh⟩
              · obtain ⟨n', rfl, hpos, hmem⟩ := ih _ _ _ _ h
                refine ⟨n', rfl, by omega, ?_⟩
                rw [List.drop_drop] at hmem
                have harith : max n 1 + (a - (pos + max n 1)) = a - pos := by omega
                rwa [harith] at hmem
          | none =>
              simp only [findIterAux, hh] at h
              obtain ⟨n', rfl, hpos, hmem⟩ := ih _ _ _ _ h
              refine ⟨n', rfl, by omega, ?_⟩
              have hdrop : rest.drop (a - (pos + 1)) = (c :: rest).drop (a - pos) := by
                have h1 : rest = (c :: rest).drop 1 := rfl
                rw [h1, List.drop_drop]
                congr 1
                omega
              rwa [hdrop] at hmem

/-!
## Pattern library (src/redfalg_checker.py, `self.red_flags`)

The source patterns are matched against lowercased text with `re.IGNORECASE`,
so literal characters are embedded case-insensitively via `cchar`.
-/

/-- One case-insensitive literal character (regex literal under IGNORECASE). -/
def cchar (c : Char) : RE := .cls (fun a => a.toLower = c)

/-- A literal word: sequence of case-insensitive characters. -/
def cstr (w : String) : RE := w.toList.foldr (fun c r => .seq (cchar c) r) .eps

/-- `\s+`. -/
def wsp : RE := .plusCls isWS

/-- Words separated by `\s+`. -/
def wordsRE (ws : List String) : RE :=
  match ws with
  | [] => .eps
  | w :: rest => rest.foldl (fun r w2 => .seq (.seq r wsp) (cstr w2)) (cstr w)

/-- `UAE\s+Federal\s+Courts?` (first entry of `red_flags["jurisdiction_issues"]`). -/
def juriRE1 : RE := .seq (wordsRE ["uae", "federal", "court"]) (.opt (cchar 's'))

/-- The six `jurisdiction_issues` patterns, in source order. -/
def jurisdiction_res : List RE :=
  [juriRE1,
   wordsRE ["uae", "federal", "law"],
   .seq (.seq (.seq (wordsRE ["federal", "court"]) (.opt (cchar 's'))) wsp)
     (wordsRE ["of", "uae"]),
   .seq (wordsRE ["uae", "commercial", "court"]) (.opt (cchar 's')),
   .seq (.seq (wordsRE ["governing", "law"]) (.starCls isNotNL)) (cstr "uae"),
   .seq (.seq (cstr "jurisdiction") (.starCls isNotNL)) (wordsRE ["uae", "federal"])]

/-- The six `ambiguous_language` patterns, in source order. -/
def ambiguous_res : List RE :=
  [wordsRE ["may", "or", "may", "not"],
   wordsRE ["subject", "to", "approval"],
   wordsRE ["as", "deemed", "appropriate"],
   wordsRE ["reasonable", "discretion"],
   wordsRE ["best", "efforts"],
   wordsRE ["commercially", "reasonable"]]

/-- `signed\s+by` (third entry of `red_flags["missing_signatures"]`). -/
def signedByRE : RE := wordsRE ["signed", "by"]

/-- The five `missing_signatures` patterns, in source order. -/
def signature_res : List RE :=
  [wordsRE ["signature", "block"],
   wordsRE ["executed", "by"],
   signedByRE,
   wordsRE ["authorized", "signatory"],
   wordsRE ["witness", "signature"]]

/-- The six `incomplete_info` patterns, in source order (`TBD`,
`to\s+be\s+determined`, `to\s+be\s+agreed`, `placeholder`, `\[.*\]`, `___+`). -/
def incomplete_res : List RE :=
  [cstr "tbd",
   wordsRE ["to", "be", "determined"],
   wordsRE ["to", "be", "agreed"],
   cstr "placeholder",
   .seq (.seq (cchar '[') (.starCls isNotNL)) (cchar ']'),
   .seq (cchar '_') (.seq (cchar '_') (.plusCls (fun c => c = '_')))]

/-- The five `non_compliant_structures` patterns, in source order. -/
def noncompliant_res : List RE :=
  [wordsRE ["bearer", "shares"],
   wordsRE ["nominee", "director"],
   wordsRE ["trust", "structure"],
   wordsRE ["offshore", "company"],
   wordsRE ["tax", "haven"]]

/-- `\d+\.` (used by `check_formatting_issues`). -/
def digitDotRE : RE := .seq (.plusCls Char.isDigit) (cchar '.')

/-!
## Issue records and the red-flag checks (src/redfalg_checker.py)
-/

/-- An issue dict produced by `RedFlagChecker`.  `location` is `none` for the
issue dicts that the source builds without a `"location"` key. -/
structure Issue : Type where
  type : String
  severity : String
  description : String
  location : Option String
  suggestion : String
  adgm_reference : String
deriving Repr, DecidableEq

/-- `f"Position {start}-{end}"`. -/
def posString (a b : Nat) : String := "Position " ++ Nat.repr a ++ "-" ++ Nat.repr b

/-- The span `s[a:b]` of a text. -/
def extractSpan (s : List Char) (a b : Nat) : List Char := (s.drop a).take (b - a)

/-- Issue built for one jurisdiction match (`check_jurisdiction_issues`). -/
def mkJurisdictionIssue (ab : Nat × Nat) : Issue :=
  { type := "jurisdiction_issue"
    severity := "High"
    description := "Reference to UAE Federal Courts instead of ADGM"
    location := some (posString ab.1 ab.2)
    suggestion := "Replace with ADGM jurisdiction references"
    adgm_reference := "ADGM Companies Regulations 2020, Article 6" }

/-- `RedFlagChecker.check_jurisdiction_issues` (lines 95-112). -/
def check_jurisdiction_issues (text : List Char) : List Issue :=
  let text_lower := lowerStr text
  jurisdiction_res.flatMap (fun r => (findIter r text_lower).map mkJurisdictionIssue)

/-- Issue built for one missing clause (`check_missing_clauses`). -/
def mkMissingClauseIssue (clause : String) : Issue :=
  { type := "missing_clause"
    severity := "High"
    description := "Missing required clause: " ++ clause
    location := none
    suggestion := "Add " ++ clause ++ " section to comply with ADGM requirements"
    adgm_reference := "ADGM Companies Regulations 2020" }

/-- `self.adgm_requirements` (lines 63-93), in source order. -/
def adgm_requirements : List (String × List String) :=
  [("Articles of Association",
    ["ADGM jurisdiction", "company objects", "share capital structure",
     "director appointment", "shareholder rights", "registered office"]),
   ("Memorandum of Association",
    ["company name", "registered office", "objects clause",
     "liability of members", "capital structure"]),
   ("Board Resolution",
    ["meeting date", "directors present", "resolution text",
     "voting results", "signature blocks"]),
   ("UBO Declaration",
    ["beneficial owner details", "ownership percentages", "control structures",
     "declaration statements", "supporting documentation"])]

/-- `RedFlagChecker.check_missing_clauses` (lines 114-132): for each required
clause of the document type, append an issue when `clause.lower()` is not a
substring of the lowered text. -/
def check_missing_clauses (text : List Char) (document_type : String) : List Issue :=
  let text_lower := lowerStr text
  match dlookup adgm_requirements document_type with
  | none => []
  | some required_clauses =>
      required_clauses.foldl
        (fun issues clause =>
          if isSubIn (lowerStr clause.toList) text_lower then issues
          else issues ++ [mkMissingClauseIssue clause]) []

/-- Issue built for one ambiguous-language match, recording the matched span
(`match.group()` of the lowered text). -/
def mkAmbiguousIssue (text_lower : List Char) (ab : Nat × Nat) : Issue :=
  { type := "ambiguous_language"
    severity := "Medium"
    description := String.mk ("Ambiguous language found: \x27".toList
      ++ extractSpan text_lower ab.1 ab.2 ++ ['\x27'])
    location := some (posString ab.1 ab.2)
    suggestion := "Replace with specific, binding language"
    adgm_reference := "ADGM Companies Regulations 2020" }

/-- `RedFlagChecker.check_ambiguous_language` (lines 134-151). -/
def check_ambiguous_language (text : List Char) : List Issue :=
  let text_lower := lowerStr text
  ambiguous_res.flatMap (fun r => (findIter r text_lower).map (mkAmbiguousIssue text_lower))

/-- The single issue of `check_missing_signatures`. -/
def missingSignaturesIssue : Issue :=
  { type := "missing_signatures"
    severity := "High"
    description := "Missing signature section"
    location := none
    suggestion := "Add proper signature blocks with witness signatures"
    adgm_reference := "ADGM Companies Regulations 2020" }

/-- `RedFlagChecker.check_missing_signatures` (lines 153-173): a presence
check — one issue when no signature pattern occurs anywhere, else none. -/
def check_missing_signatures (text : List Char) : List Issue :=
  let text_lower := lowerStr text
  if signature_res.any (fun r => reSearch r text_lower) then []
  else [missingSignaturesIssue]

/-- Issue built for one incomplete-info match (on the original, unlowered
text, as in the source). -/
def mkIncompleteIssue (text : List Char) (ab : Nat × Nat) : Issue :=
  { type := "incomplete_info"
    severity := "Medium"
    description := String.mk ("Incomplete information: \x27".toList
      ++ extractSpan text ab.1 ab.2 ++ ['\x27'])
    location := some (posString ab.1 ab.2)
    suggestion := "Complete all required information before submission"
    adgm_reference := "ADGM Companies Regulations 2020" }

/-- `RedFlagChecker.check_incomplete_info` (lines 175-191): scans the
original text (not lowered) with IGNORECASE patterns. -/
def check_incomplete_info (text : List Char) : List Issue :=
  incomplete_res.flatMap (fun r => (findIter r text).map (mkIncompleteIssue text))

/-- Issue built for one non-compliant-structure match. -/
def mkNoncompliantIssue (text_lower : List Char) (ab : Nat × Nat) : Issue :=
  { type := "non_compliant_structure"
    severity := "High"
    description := String.mk ("Non-compliant structure: \x27".toList
      ++ extractSpan text_lower ab.1 ab.2 ++ ['\x27'])
    location := some (posString ab.1 ab.2)
    suggestion := "Review structure for ADGM compliance"
    adgm_reference := "ADGM Companies Regulations 2020" }

/-- `RedFlagChecker.check_non_compliant_structures` (lines 193-210). -/
def check_non_compliant_structures (text : List Char) : List Issue :=
  let text_lower := lowerStr text
  noncompliant_res.flatMap (fun r => (findIter r text_lower).map (mkNoncompliantIssue text_lower))

/-- First index at which `sep` occurs in `s` (Python `str.find` for a
non-empty separator), or `none`. -/
def findSepIndex (sep : List Char) : List Char → Option Nat
  | [] => if sep.isEmpty then some 0 else none
  | s@(_ :: rest) =>
      if sep.isPrefixOf s then some 0
      else (findSepIndex sep rest).map (fun i => i + 1)

/-- Python `text.split("\n\n")` (non-collapsing split on every occurrence;
`"".split("\n\n") = [""]`). -/
def splitParasAux : Nat → List Char → List (List Char)
  | 0, s => [s]
  | fuel + 1, s =>
      match findSepIndex ['\n', '\n'] s with
      | none => [s]
      | some i => s.take i :: splitParasAux fuel (s.drop (i + 2))

def splitParas (s : List Char) : List (List Char) := splitParasAux (s.length + 1) s

/-- First formatting issue (insufficient paragraph structure). -/
def fmtStructureIssue : Issue :=
  { type := "formatting_issue"
    severity := "Low"
    description := "Document appears to have insufficient structure"
    location := none
    suggestion := "Organize document into clear sections with proper headings"
    adgm_reference := "ADGM Document Standards" }

/-- Second formatting issue (no numbered clauses). -/
def fmtNumberingIssue : Issue :=
  { type := "formatting_issue"
    severity := "Low"
    description := "Document lacks proper clause numbering"
    location := none
    suggestion := "Add numbered clauses for better organization"
    adgm_reference := "ADGM Document Standards" }

/-- `RedFlagChecker.check_formatting_issues` (lines 212-237). -/
def check_formatting_issues (text : List Char) : List Issue :=
  (if (splitParas text).length < 3 then [fmtStructureIssue] else [])
    ++ (if reSearch digitDotRE text then [] else [fmtNumberingIssue])

/-!
## Aggregation (`RedFlagChecker.analyze_document`, lines 239-285)
-/

/-- `severity_scores.get(severity, 1)` with `{"Low": 1, "Medium": 2, "High": 3}`. -/
def severityScore (s : String) : Nat :=
  if s = "Low" then 1 else if s = "Medium" then 2 else if s = "High" then 3 else 1

/-- Python `max(list)` for a non-empty list, with the source's guard giving
`0` for the empty list. -/
def pyListMax : List Nat → Nat
  | [] => 0
  | x :: xs => xs.foldl Nat.max x

/-- The `max_severity` value of `analyze_document` (line 254). -/
def maxSeverityOf (issues : List Issue) : Nat :=
  pyListMax (issues.map (fun i => severityScore i.severity))

/-- The `overall_severity` computation (lines 256-260). -/
def overallSeverity (issues : List Issue) : String :=
  let m := maxSeverityOf issues
  if m ≥ 3 then "High" else if m ≥ 2 then "Medium" else "Low"

/-- Append `x` under key `k` in an insertion-ordered dictionary of lists
(the `issues_by_type` accumulation of lines 263-268). -/
def dictAppend (d : List (String × List Issue)) (k : String) (x : Issue) :
    List (String × List Issue) :=
  match d with
  | [] => [(k, [x])]
  | (k', v) :: rest => if k' = k then (k', v ++ [x]) :: rest else (k', v) :: dictAppend rest k x

/-- Group issues by their `type` field preserving insertion and list order. -/
def groupByType (issues : List Issue) : List (String × List Issue) :=
  issues.foldl (fun d i => dictAppend d i.type i) []

/-- The `summary` dict of `analyze_document` (lines 276-284). -/
def mkSummary (all_issues : List Issue) : List (String × Nat) :=
  [("jurisdiction_issues",
      (all_issues.filter (fun i => decide (i.type = "jurisdiction_issue"))).length),
   ("missing_clauses",
      (all_issues.filter (fun i => decide (i.type = "missing_clause"))).length),
   ("ambiguous_language",
      (all_issues.filter (fun i => decide (i.type = "ambiguous_language"))).length),
   ("missing_signatures",
      (all_issues.filter (fun i => decide (i.type = "missing_signatures"))).length),
   ("incomplete_info",
      (all_issues.filter (fun i => decide (i.type = "incomplete_info"))).length),
   ("non_compliant_structures",
      (all_issues.filter (fun i => decide (i.type = "non_compliant_structure"))).length),
   ("formatting_issues",
      (all_issues.filter (fun i => decide (i.type = "formatting_issue"))).length)]

/-- The analysis record returned by `analyze_document`. -/
structure DocumentAnalysis : Type where
  document_type : String
  total_issues : Nat
  overall_severity : String
  issues : List Issue
  issues_by_type : List (String × List Issue)
  summary : List (String × Nat)

/-- The `all_issues` accumulation of `analyze_document` (lines 241-250):
all seven checks run unconditionally, in source order. -/
def allIssues (text : List Char) (document_type : String) : List Issue :=
  check_jurisdiction_issues text
    ++ check_missing_clauses text document_type
    ++ check_ambiguous_language text
    ++ check_missing_signatures text
    ++ check_incomplete_info text
    ++ check_non_compliant_structures text
    ++ check_formatting_issues text

/-- `RedFlagChecker.analyze_document` (lines 239-285): run all seven checks
in order, aggregate severity, group and summarize. -/
def analyze_document (text : List Char) (document_type : String) : DocumentAnalysis :=
  { document_type := document_type
    total_issues := (allIssues text document_type).length
    overall_severity := overallSeverity (allIssues text document_type)
    issues := allIssues text document_type
    issues_by_type := groupByType (allIssues text document_type)
    summary := mkSummary (allIssues text document_type) }

/-!
## Classifier and process detector (src/doc_parser.py)
-/

/-- `self.document_types` (lines 16-65), in source order. -/
def document_types : List (String × List String) :=
  [("Articles of Association",
    ["articles of association", "articles", "aoa", "company constitution",
     "share capital", "shareholders", "directors", "objects clause"]),
   ("Memorandum of Association",
    ["memorandum of association", "memorandum", "moa", "mou",
     "company name", "registered office", "objects"]),
   ("Board Resolution",
    ["board resolution", "directors resolution", "board meeting",
     "directors meeting", "resolution of directors"]),
   ("Shareholder Resolution",
    ["shareholder resolution", "shareholders resolution", "general meeting",
     "extraordinary general meeting", "egm", "agm"]),
   ("Incorporation Application",
    ["incorporation application", "application for incorporation",
     "company registration", "registration application"]),
   ("UBO Declaration",
    ["ubo declaration", "ultimate beneficial owner", "beneficial owner",
     "ownership declaration", "shareholder declaration"]),
   ("Register of Members and Directors",
    ["register of members", "register of directors", "members register",
     "directors register", "shareholder register"]),
   ("Change of Registered Address",
    ["change of address", "registered address", "address change",
     "change of registered office"]),
   ("Employment Contract",
    ["employment contract", "employment agreement", "service agreement",
     "terms of employment", "employee contract"]),
   ("Licensing Application",
    ["licensing application", "license application", "regulatory filing",
     "compliance filing", "regulatory application"]),
   ("Commercial Agreement",
    ["commercial agreement", "commercial contract", "business agreement",
     "service agreement", "supply agreement"]),
   ("Compliance Policy",
    ["compliance policy", "risk policy", "compliance framework",
     "risk management", "compliance manual"])]

/-- Per-type confidence: `score / len(keywords) if keywords else 0`, where
`score` counts the keywords occurring in the lowered text (lines 92-97).
Rational arithmetic models the float exactly: with the table's denominators
(at most 8) distinct scores are far further apart than a double's rounding
error, and IEEE division is correctly rounded, so all comparisons agree. -/
def keywordScore (keywords : List String) (text_lower : List Char) : ℚ :=
  if keywords = [] then 0
  else (keywords.countP (fun k => isSubIn k.toList text_lower) : ℚ) / (keywords.length : ℚ)

/-- The `max(scores.items(), key=lambda x: x[1])` step of
`identify_document_type`: the winning table entry (with its keyword list in
place of its score; the scores dict is keyed in table insertion order). -/
def classifierBest (text_lower : List Char) : String × List String :=
  match document_types with
  | [] => ("", [])
  | p :: rest => pyMax (fun q : String × List String => keywordScore q.2 text_lower) p rest

/-- `DocumentParser.identify_document_type` (lines 87-101): score each type,
then pick the best by Python `max` over the insertion-ordered scores dict,
returning `(best_type, best_score)`. -/
def identify_document_type (text : List Char) : String × ℚ :=
  let text_lower := lowerStr text
  let best := classifierBest text_lower
  (best.1, keywordScore best.2 text_lower)

/-- `process_requirements` (lines 146-171). -/
def process_requirements : List (String × List String) :=
  [("Company Incorporation",
    ["Articles of Association", "Memorandum of Association",
     "Incorporation Application", "UBO Declaration",
     "Register of Members and Directors"]),
   ("Company Licensing",
    ["Licensing Application", "Articles of Association",
     "Memorandum of Association", "UBO Declaration", "Compliance Policy"]),
   ("Employment Setup",
    ["Employment Contract", "Board Resolution", "Compliance Policy"]),
   ("Commercial Agreement",
    ["Commercial Agreement", "Board Resolution", "Shareholder Resolution"])]

/-- `DocumentParser.get_required_documents_for_process` (lines 144-173):
`process_requirements.get(process, [])`. -/
def get_required_documents_for_process (process : String) : List String :=
  (dlookup process_requirements process).getD []

/-- The four vote counters of `detect_process_from_documents`, in the
insertion order of the `process_scores` dict. -/
structure ProcessScores : Type where
  incorporation : Nat
  licensing : Nat
  employment : Nat
  commercial : Nat
deriving Repr, DecidableEq

/-- One iteration of the voting loop (lines 185-193): each of the four `if`
tests is independent (not `elif`). -/
def voteStep (s : ProcessScores) (doc_type : String) : ProcessScores :=
  let s := if doc_type ∈ ["Articles of Association", "Memorandum of Association",
      "Incorporation Application"] then { s with incorporation := s.incorporation + 1 } else s
  let s := if doc_type ∈ ["Licensing Application", "Compliance Policy"] then
      { s with licensing := s.licensing + 1 } else s
  let s := if doc_type ∈ ["Employment Contract"] then
      { s with employment := s.employment + 1 } else s
  let s := if doc_type ∈ ["Commercial Agreement"] then
      { s with commercial := s.commercial + 1 } else s
  s

/-- `DocumentParser.detect_process_from_documents` (lines 175-196): vote,
then Python `max` over the insertion-ordered dict items (ties favour the
first-listed process). -/
def detect_process_from_documents (document_types_list : List String) : String :=
  let s := document_types_list.foldl voteStep ⟨0, 0, 0, 0⟩
  (pyMax Prod.snd ("Company Incorporation", s.incorporation)
    [("Company Licensing", s.licensing), ("Employment Setup", s.employment),
     ("Commercial Agreement", s.commercial)]).1

/-- Pure core of `CorporateAgent.process_documents` (src/app.py lines 88-97):
detect the process from the classified types and compute the missing required
documents (list comprehension preserving the required list's order). -/
def process_documents_detection (document_types_list : List String) :
    String × List String :=
  let detected := detect_process_from_documents document_types_list
  let required := get_required_documents_for_process detected
  (detected, required.filter (fun d => !document_types_list.contains d))

/-!
## Report builder (src/app.py, `CorporateAgent.generate_structured_report`)
-/

/-- One entry of `results["documents_analyzed"]` (the fields the report
builder reads). -/
structure DocResult : Type where
  file_name : String
  document_type : String
  red_flag_analysis : DocumentAnalysis

/-- The `results` dict fields consumed by `generate_structured_report`
(always present: `process_documents` initializes them). -/
structure Results : Type where
  process_detected : String
  documents_analyzed : List DocResult
  missing_documents : List String

/-- One entry of `report["issues_found"]`.  `sectionLabel` embeds the
`"section"` key (`section` is a Lean keyword). -/
structure ReportIssue : Type where
  document : String
  sectionLabel : String
  issue : String
  severity : String
  suggestion : String
deriving Repr, DecidableEq

/-- The structured report (lines 124-130). -/
structure Report : Type where
  process : String
  documents_uploaded : Nat
  required_documents : Nat
  missing_document : String
  issues_found : List ReportIssue

/-- The entry built for one issue of one document (lines 150-157):
`issue.get("location", "General")` becomes `location.getD "General"`. -/
def mkReportIssue (doc_type : String) (i : Issue) : ReportIssue :=
  { document := doc_type
    sectionLabel := i.location.getD "General"
    issue := i.description
    severity := i.severity
    suggestion := i.suggestion }

/-- `CorporateAgent.generate_structured_report` (lines 122-159).  The
`if results.get("process_detected"):` test is Python truthiness, i.e. the
string is non-empty. -/
def generate_structured_report (results : Results) : Report :=
  let required_documents :=
    if results.process_detected ≠ "" then
      (get_required_documents_for_process results.process_detected).length
    else 0
  let missing_document :=
    if results.process_detected ≠ "" then
      match results.missing_documents with
      | [] => ""
      | m :: _ => m
    else ""
  let issues_found :=
    results.documents_analyzed.foldl
      (fun acc d => acc ++ d.red_flag_analysis.issues.map (mkReportIssue d.document_type)) []
  { process := results.process_detected
    documents_uploaded := results.documents_analyzed.length
    required_documents := required_documents
    missing_document := missing_document
    issues_found := issues_found }

/-!
## Claim theorems
-/

/-- C4: for uploads `["Articles of Association", "Memorandum of Association"]`
the detected process is "Company Incorporation" and the missing-document list
is exactly `["Incorporation Application", "UBO Declaration",
"Register of Members and Directors"]` — the required list minus the uploaded
types, in the required list's original order. -/
theorem c4_incorporation_detection_example :
    process_documents_detection
        ["Articles of Association", "Memorandum of Association"]
      = ("Company Incorporation",
         ["Incorporation Application", "UBO Declaration",
          "Register of Members and Directors"]) := by
  decide

/-- The union of the document types that cast a vote in
`detect_process_from_documents` (the four membership tests of the loop). -/
def voting_document_types : List String :=
  ["Articles of Association", "Memorandum of Association", "Incorporation Application",
   "Licensing Application", "Compliance Policy", "Employment Contract",
   "Commercial Agreement"]

theorem voteStep_eq_of_not_voting (s : ProcessScores) (dt : String)
    (h : dt ∉ voting_document_types) : voteStep s dt = s := by
  simp only [voting_document_types, List.mem_cons, List.not_mem_nil, or_false,
    not_or] at h
  obtain ⟨h1, h2, h3, h4, h5, h6, h7⟩ := h
  simp [voteStep, h1, h2, h3, h4, h5, h6, h7]

/-- C10: a list of classified types none of which is a voting type (including
the empty list) leaves all vote counters at zero, so
`detect_process_from_documents` returns the first-declared process
"Company Incorporation" rather than any "unknown" marker. -/
theorem c10_no_votes_defaults_to_incorporation (dts : List String)
    (h : ∀ dt ∈ dts, dt ∉ voting_document_types) :
    detect_process_from_documents dts = "Company Incorporation" := by
  have hfold : ∀ (l : List String), (∀ dt ∈ l, dt ∉ voting_document_types) →
      ∀ s : ProcessScores, l.foldl voteStep s = s := by
    intro l
    induction l with
    | nil => intro _ s; rfl
    | cons d l ih =>
        intro hl s
        rw [List.foldl_cons, voteStep_eq_of_not_voting s d (hl d (List.mem_cons_self _ _))]
        exact ih (fun x hx => hl x (List.mem_cons_of_mem _ hx)) s
  simp only [detect_process_from_documents]
  rw [hfold dts h]
  decide

theorem c10_no_votes_defaults_to_incorporation_witness :
    (∀ dt ∈ ([] : List String), dt ∉ voting_document_types) ∧
      detect_process_from_documents [] = "Company Incorporation" :=
  ⟨by simp, c10_no_votes_defaults_to_incorporation [] (by simp)⟩

theorem document_types_keywords_ne_nil : ∀ p ∈ document_types, p.2 ≠ [] := by
  decide

theorem document_types_keywords_ne_empty :
    ∀ p ∈ document_types, ∀ k ∈ p.2, k.toList.isEmpty = false := by
  decide

theorem keywordScore_nonneg (kws : List String) (tl : List Char) :
    0 ≤ keywordScore kws tl := by
  unfold keywordScore
  by_cases h : kws = []
  · simp [h]
  · rw [if_neg h]
    exact div_nonneg (Nat.cast_nonneg _) (Nat.cast_nonneg _)

theorem keywordScore_le_one (kws : List String) (tl : List Char) :
    keywordScore kws tl ≤ 1 := by
  unfold keywordScore
  by_cases h : kws = []
  · simp [h]
  · rw [if_neg h]
    have hpos : (0 : ℚ) < (kws.length : ℚ) := by
      exact_mod_cast List.length_pos.mpr h
    rw [div_le_one hpos]
    exact_mod_cast List.countP_le_length _

theorem keywordScore_empty_text (kws : List String)
    (hne : kws ≠ []) (hkw : ∀ k ∈ kws, k.toList.isEmpty = false) :
    keywordScore kws [] = 0 := by
  unfold keywordScore
  rw [if_neg hne]
  have hcount : kws.countP (fun k => isSubIn k.toList []) = 0 := by
    rw [List.countP_eq_zero]
    intro k hk
    simp only [isSubIn]
    rw [hkw k hk]
    simp
  rw [hcount]
  simp

theorem identify_document_type_eq (text : List Char) :
    identify_document_type text
      = ((classifierBest (lowerStr text)).1,
         keywordScore (classifierBest (lowerStr text)).2 (lowerStr text)) := rfl

theorem classifierBest_spec (tl : List Char) :
    ∃ l₁ l₂, document_types = l₁ ++ classifierBest tl :: l₂ ∧
      (∀ p ∈ document_types, keywordScore p.2 tl ≤ keywordScore (classifierBest tl).2 tl) ∧
      (∀ p ∈ l₁, keywordScore p.2 tl < keywordScore (classifierBest tl).2 tl) := by
  have hcb : classifierBest tl
      = pyMax (fun q : String × List String => keywordScore q.2 tl)
          (document_types.headD ("", [])) document_types.tail := rfl
  obtain ⟨l₁, l₂, hdec, hmax, hstrict⟩ :=
    pyMax_spec (fun q : String × List String => keywordScore q.2 tl)
      document_types.tail (document_types.headD ("", []))
  have htable : document_types.headD ("", []) :: document_types.tail = document_types := rfl
  rw [htable] at hdec hmax
  rw [← hcb] at hdec hmax hstrict
  exact ⟨l₁, l₂, hdec, hmax, hstrict⟩

theorem classifierBest_mem (tl : List Char) : classifierBest tl ∈ document_types := by
  obtain ⟨l₁, l₂, hdec, _, _⟩ := classifierBest_spec tl
  rw [hdec]
  exact List.mem_append_right _ (List.mem_cons_self _ _)

theorem classifierBest_empty :
    classifierBest [] = ("Articles of Association",
      ["articles of association", "articles", "aoa", "company constitution",
       "share capital", "shareholders", "directors", "objects clause"]) := by
  obtain ⟨l₁, l₂, hdec, hmax, hstrict⟩ := classifierBest_spec []
  have hzero : ∀ p ∈ document_types, keywordScore p.2 [] = 0 := fun p hp =>
    keywordScore_empty_text p.2 (document_types_keywords_ne_nil p hp)
      (document_types_keywords_ne_empty p hp)
  have hbmem : classifierBest [] ∈ document_types := classifierBest_mem []
  have hl₁nil : l₁ = [] := by
    cases hm : l₁ with
    | nil => rfl
    | cons a l₁' =>
        exfalso
        have ha : a ∈ document_types := by
          rw [hdec, hm]
          exact List.mem_append_left _ (List.mem_cons_self _ _)
        have := hstrict a (by rw [hm]; exact List.mem_cons_self _ _)
        rw [hzero a ha, hzero _ hbmem] at this
        exact lt_irrefl 0 this
  rw [hl₁nil, List.nil_append] at hdec
  have hsplit : document_types = ("Articles of Association",
      ["articles of association", "articles", "aoa", "company constitution",
       "share capital", "shareholders", "directors", "objects clause"])
        :: document_types.tail := rfl
  rw [hsplit] at hdec
  exact ((List.cons.injEq _ _ _ _).mp hdec).1.symm

theorem identify_fst (text : List Char) :
    (identify_document_type text).1 = (classifierBest (lowerStr text)).1 := by
  rw [identify_document_type_eq]

theorem identify_snd (text : List Char) :
    (identify_document_type text).2
      = keywordScore (classifierBest (lowerStr text)).2 (lowerStr text) := by
  rw [identify_document_type_eq]

/-- C1: for every text, `identify_document_type` returns a pair whose
confidence lies in `[0, 1]` and equals exactly (number of the returned
type's keywords occurring as substrings of the lowered text) divided by
(total keywords of that type); the returned type's score is maximal over
the registered table and every type listed before it scores strictly less
(first-seen tie-breaking in table order); in the all-zero case at the empty
text the first table entry "Articles of Association" is returned with
confidence 0; the function is total, so no error is possible. -/
theorem c1_classifier_confidence_and_argmax (text : List Char) :
    0 ≤ (identify_document_type text).2 ∧ (identify_document_type text).2 ≤ 1 ∧
    (∃ l₁ kws l₂, document_types = l₁ ++ ((identify_document_type text).1, kws) :: l₂ ∧
      kws ≠ [] ∧
      (identify_document_type text).2
        = (kws.countP (fun k => isSubIn k.toList (lowerStr text)) : ℚ) / (kws.length : ℚ) ∧
      (∀ p ∈ document_types,
        keywordScore p.2 (lowerStr text) ≤ (identify_document_type text).2) ∧
      (∀ p ∈ l₁, keywordScore p.2 (lowerStr text) < (identify_document_type text).2)) ∧
    identify_document_type [] = ("Articles of Association", 0) := by
  obtain ⟨l₁, l₂, hdec, hmax, hstrict⟩ := classifierBest_spec (lowerStr text)
  have hbmem : classifierBest (lowerStr text) ∈ document_types :=
    classifierBest_mem (lowerStr text)
  have hkne : (classifierBest (lowerStr text)).2 ≠ [] :=
    document_types_keywords_ne_nil _ hbmem
  refine ⟨?_, ?_, ⟨l₁, (classifierBest (lowerStr text)).2, l₂, ?_, hkne, ?_, ?_, ?_⟩, ?_⟩
  · rw [identify_snd]
    exact keywordScore_nonneg _ _
  · rw [identify_snd]
    exact keywordScore_le_one _ _
  · rw [identify_fst, Prod.mk.eta]
    exact hdec
  · rw [identify_snd]
    unfold keywordScore
    rw [if_neg hkne]
  · intro p hp
    rw [identify_snd]
    exact hmax p hp
  · intro p hp
    rw [identify_snd]
    exact hstrict p hp
  · rw [identify_document_type_eq [], show lowerStr [] = [] from rfl, classifierBest_empty]
    rw [keywordScore_empty_text _ (by decide) (by decide)]

theorem clause_foldl_eq (tl : List Char) : ∀ (req : List String) (acc : List Issue),
    req.foldl (fun issues clause =>
        if isSubIn (lowerStr clause.toList) tl then issues
        else issues ++ [mkMissingClauseIssue clause]) acc
      = acc ++ (req.filter
          (fun c => !(isSubIn (lowerStr c.toList) tl))).map mkMissingClauseIssue := by
  intro req
  induction req with
  | nil => intro acc; simp
  | cons c req ih =>
      intro acc
      rw [List.foldl_cons]
      by_cases h : isSubIn (lowerStr c.toList) tl = true
      · rw [if_pos h, ih, List.filter_cons]
        simp only [String.toList] at h
        simp [h]
      · rw [if_neg h, ih, List.filter_cons]
        simp only [Bool.not_eq_true, String.toList] at h
        simp [h]

theorem check_missing_clauses_none (text : List Char) (dt : String)
    (h : dlookup adgm_requirements dt = none) : check_missing_clauses text dt = [] := by
  simp [check_missing_clauses, h]

theorem check_missing_clauses_some (text : List Char) (dt : String) (req : List String)
    (h : dlookup adgm_requirements dt = some req) :
    check_missing_clauses text dt
      = (req.filter (fun c => !(isSubIn (lowerStr c.toList) (lowerStr text)))).map
          mkMissingClauseIssue := by
  simp only [check_missing_clauses, h]
  rw [clause_foldl_eq]
  simp

theorem adgm_requirements_nodup (dt : String) (req : List String)
    (h : dlookup adgm_requirements dt = some req) : req.Nodup := by
  simp only [adgm_requirements, dlookup] at h
  split_ifs at h with h1 h2 h3 h4 <;>
    (injection h with h'; subst h'; decide)

theorem mkMissingClauseIssue_inj : Function.Injective mkMissingClauseIssue := by
  intro a b h
  have hd := congrArg Issue.description h
  simp only [mkMissingClauseIssue] at hd
  have hdata := congrArg String.data hd
  simp only [String.data_append] at hdata
  have := List.append_cancel_left hdata
  cases a; cases b
  exact congrArg String.mk this

theorem countP_eq_one_of_nodup {α : Type} [DecidableEq α] :
    ∀ (l : List α), l.Nodup → ∀ c ∈ l, l.countP (fun x => decide (x = c)) = 1 := by
  intro l
  induction l with
  | nil => intro _ c hc; simp at hc
  | cons a l ih =>
      intro hnd c hc
      have hna : a ∉ l := (List.nodup_cons.mp hnd).1
      have hndl : l.Nodup := (List.nodup_cons.mp hnd).2
      rw [List.countP_cons]
      rcases List.mem_cons.mp hc with rfl | hcl
      · have hz : l.countP (fun x => decide (x = c)) = 0 := by
          rw [List.countP_eq_zero]
          intro x hx
          simp only [decide_eq_true_eq]
          intro hxc
          exact hna (hxc ▸ hx)
        simp [hz]
      · have hac : a ≠ c := fun hac => hna (hac ▸ hcl)
        rw [ih hndl c hcl]
        simp [hac]

/-- C2: for every text and document type with a registered required-clause
list, the missing-clause check returns exactly the High-severity
missing_clause issues of the absent clauses (one per absent clause, none for
present ones, in list order); a type with no registered list yields `[]`
without raising. -/
theorem c2_missing_clauses_exact (text : List Char) (dt : String) :
    (dlookup adgm_requirements dt = none → check_missing_clauses text dt = []) ∧
    (∀ req, dlookup adgm_requirements dt = some req →
      check_missing_clauses text dt
        = (req.filter (fun c => !(isSubIn (lowerStr c.toList) (lowerStr text)))).map
            mkMissingClauseIssue ∧
      (∀ i ∈ check_missing_clauses text dt,
        i.severity = "High" ∧ i.type = "missing_clause") ∧
      (∀ c ∈ req,
        (isSubIn (lowerStr c.toList) (lowerStr text) = false →
          (check_missing_clauses text dt).countP
            (fun i => decide (i = mkMissingClauseIssue c)) = 1) ∧
        (isSubIn (lowerStr c.toList) (lowerStr text) = true →
          (check_missing_clauses text dt).countP
            (fun i => decide (i = mkMissingClauseIssue c)) = 0))) := by
  constructor
  · intro h
    exact check_missing_clauses_none text dt h
  · intro req h
    have heq := check_missing_clauses_some text dt req h
    have hnd : req.Nodup := adgm_requirements_nodup dt req h
    have hcomp : ∀ c : String,
        ((fun i => decide (i = mkMissingClauseIssue c)) ∘ mkMissingClauseIssue)
          = fun x => decide (x = c) := by
      intro c
      funext x
      simp only [Function.comp_apply, decide_eq_decide]
      exact ⟨fun hh => mkMissingClauseIssue_inj hh, fun hh => by rw [hh]⟩
    refine ⟨heq, ?_, ?_⟩
    · intro i hi
      rw [heq] at hi
      obtain ⟨c, _, rfl⟩ := List.mem_map.mp hi
      exact ⟨rfl, rfl⟩
    · intro c hc
      constructor
      · intro habs
        rw [heq, List.countP_map, hcomp c]
        refine countP_eq_one_of_nodup _ (hnd.filter _) c ?_
        rw [List.mem_filter]
        have habs' : isSubIn (lowerStr c.data) (lowerStr text) = false := habs
        exact ⟨hc, by simp [habs']⟩
      · intro hpres
        rw [heq, List.countP_map, hcomp c]
        rw [List.countP_eq_zero]
        intro x hx
        simp only [decide_eq_true_eq]
        intro hxc
        subst hxc
        have := (List.mem_filter.mp hx).2
        rw [hpres] at this
        simp at this

theorem c2_missing_clauses_exact_witness :
    dlookup adgm_requirements "Memorandum of Association"
        = some ["company name", "registered office", "objects clause",
                "liability of members", "capital structure"] ∧
      (check_missing_clauses [] "Memorandum of Association").countP
        (fun i => decide (i = mkMissingClauseIssue "company name")) = 1 := by
  refine ⟨by decide, ?_⟩
  have h := (c2_missing_clauses_exact [] "Memorandum of Association").2
    ["company name", "registered office", "objects clause",
     "liability of members", "capital structure"] (by decide)
  exact (h.2.2 "company name" (by decide)).1 (by decide)

theorem mem_jurisdiction_severity (text : List Char) :
    ∀ i ∈ check_jurisdiction_issues text, i.severity = "High" ∧ i.type = "jurisdiction_issue" := by
  intro i hi
  simp only [check_jurisdiction_issues, List.mem_flatMap, List.mem_map] at hi
  obtain ⟨r, _, ab, _, rfl⟩ := hi
  exact ⟨rfl, rfl⟩

theorem mem_missing_clauses_severity (text : List Char) (dt : String) :
    ∀ i ∈ check_missing_clauses text dt, i.severity = "High" ∧ i.type = "missing_clause" := by
  intro i hi
  cases hdl : dlookup adgm_requirements dt with
  | none =>
      rw [check_missing_clauses_none text dt hdl] at hi
      simp at hi
  | some req =>
      rw [check_missing_clauses_some text dt req hdl] at hi
      obtain ⟨c, _, rfl⟩ := List.mem_map.mp hi
      exact ⟨rfl, rfl⟩

theorem mem_ambiguous_severity (text : List Char) :
    ∀ i ∈ check_ambiguous_language text, i.severity = "Medium" ∧ i.type = "ambiguous_language" := by
  intro i hi
  simp only [check_ambiguous_language, List.mem_flatMap, List.mem_map] at hi
  obtain ⟨r, _, ab, _, rfl⟩ := hi
  exact ⟨rfl, rfl⟩

theorem mem_signatures_severity (text : List Char) :
    ∀ i ∈ check_missing_signatures text, i.severity = "High" ∧ i.type = "missing_signatures" := by
  intro i hi
  simp only [check_missing_signatures] at hi
  by_cases hc : (signature_res.any (fun r => reSearch r (lowerStr text))) = true
  · rw [if_pos hc] at hi
    simp at hi
  · rw [if_neg hc] at hi
    simp only [List.mem_singleton] at hi
    subst hi
    exact ⟨rfl, rfl⟩

theorem mem_incomplete_severity (text : List Char) :
    ∀ i ∈ check_incomplete_info text, i.severity = "Medium" ∧ i.type = "incomplete_info" := by
  intro i hi
  simp only [check_incomplete_info, List.mem_flatMap, List.mem_map] at hi
  obtain ⟨r, _, ab, _, rfl⟩ := hi
  exact ⟨rfl, rfl⟩

theorem mem_noncompliant_severity (text : List Char) :
    ∀ i ∈ check_non_compliant_structures text,
      i.severity = "High" ∧ i.type = "non_compliant_structure" := by
  intro i hi
  simp only [check_non_compliant_structures, List.mem_flatMap, List.mem_map] at hi
  obtain ⟨r, _, ab, _, rfl⟩ := hi
  exact ⟨rfl, rfl⟩

theorem mem_formatting_severity (text : List Char) :
    ∀ i ∈ check_formatting_issues text, i.severity = "Low" ∧ i.type = "formatting_issue" := by
  intro i hi
  simp only [check_formatting_issues, List.mem_append] at hi
  rcases hi with hi | hi
  · by_cases hc : (splitParas text).length < 3
    · rw [if_pos hc] at hi
      simp only [List.mem_singleton] at hi
      subst hi
      exact ⟨rfl, rfl⟩
    · rw [if_neg hc] at hi
      simp at hi
  · by_cases hc : reSearch digitDotRE text = true
    · rw [if_pos hc] at hi
      simp at hi
    · rw [if_neg hc] at hi
      simp only [List.mem_singleton] at hi
      subst hi
      exact ⟨rfl, rfl⟩

/-- Every issue produced by the seven checks has one of the three severity
labels used by the source. -/
theorem allIssues_severity_closure (text : List Char) (dt : String) :
    ∀ i ∈ allIssues text dt,
      i.severity = "Low" ∨ i.severity = "Medium" ∨ i.severity = "High" := by
  intro i hi
  simp only [allIssues, List.mem_append] at hi
  rcases hi with ((((((h | h) | h) | h) | h) | h) | h)
  · exact Or.inr (Or.inr (mem_jurisdiction_severity text i h).1)
  · exact Or.inr (Or.inr (mem_missing_clauses_severity text dt i h).1)
  · exact Or.inr (Or.inl (mem_ambiguous_severity text i h).1)
  · exact Or.inr (Or.inr (mem_signatures_severity text i h).1)
  · exact Or.inr (Or.inl (mem_incomplete_severity text i h).1)
  · exact Or.inr (Or.inr (mem_noncompliant_severity text i h).1)
  · exact Or.inl (mem_formatting_severity text i h).1

theorem le_pyListMax : ∀ (l : List Nat), ∀ x ∈ l, x ≤ pyListMax l := by
  have aux : ∀ (ys : List Nat) (a : Nat),
      a ≤ ys.foldl Nat.max a ∧ ∀ x ∈ ys, x ≤ ys.foldl Nat.max a := by
    intro ys
    induction ys with
    | nil => intro a; exact ⟨le_refl _, by simp⟩
    | cons z zs ih =>
        intro a
        obtain ⟨h1, h2⟩ := ih (Nat.max a z)
        rw [List.foldl_cons]
        refine ⟨le_trans (Nat.le_max_left a z) h1, ?_⟩
        intro x hx
        rcases List.mem_cons.mp hx with rfl | hx'
        · exact le_trans (Nat.le_max_right a x) h1
        · exact h2 x hx'
  intro l x hx
  cases l with
  | nil => simp at hx
  | cons y ys =>
      rcases List.mem_cons.mp hx with rfl | hx'
      · exact (aux ys x).1
      · exact (aux ys y).2 x hx'

theorem pyListMax_mem : ∀ (l : List Nat), l ≠ [] → pyListMax l ∈ l := by
  have aux : ∀ (ys : List Nat) (a : Nat),
      ys.foldl Nat.max a = a ∨ ys.foldl Nat.max a ∈ ys := by
    intro ys
    induction ys with
    | nil => intro a; exact Or.inl rfl
    | cons z zs ih =>
        intro a
        rw [List.foldl_cons]
        rcases ih (Nat.max a z) with h | h
        · rcases Nat.le_total a z with hm | hm
          · refine Or.inr (List.mem_cons.mpr (Or.inl ?_))
            rw [h]
            exact Nat.max_eq_right hm
          · exact Or.inl (h.trans (Nat.max_eq_left hm))
        · exact Or.inr (List.mem_cons_of_mem _ h)
  intro l hl
  cases l with
  | nil => exact absurd rfl hl
  | cons y ys =>
      show ys.foldl Nat.max y ∈ y :: ys
      rcases aux ys y with h | h
      · rw [h]; exact List.mem_cons_self _ _
      · exact List.mem_cons_of_mem _ h

theorem pyListMax_le (l : List Nat) (b : Nat) (hb : ∀ x ∈ l, x ≤ b) : pyListMax l ≤ b := by
  have aux : ∀ (ys : List Nat) (a : Nat), a ≤ b → (∀ x ∈ ys, x ≤ b) →
      ys.foldl Nat.max a ≤ b := by
    intro ys
    induction ys with
    | nil => intro a ha _; exact ha
    | cons z zs ih =>
        intro a ha hz
        rw [List.foldl_cons]
        refine ih (Nat.max a z) (Nat.max_le.mpr ⟨ha, hz z (List.mem_cons_self _ _)⟩) ?_
        intro x hx
        exact hz x (List.mem_cons_of_mem _ hx)
  cases l with
  | nil => exact Nat.zero_le b
  | cons y ys =>
      exact aux ys y (hb y (List.mem_cons_self _ _))
        (fun x hx => hb x (List.mem_cons_of_mem _ hx))

theorem severityScore_le_three (s : String) : severityScore s ≤ 3 := by
  unfold severityScore
  split_ifs <;> omega

/-- Characterization of the `overall_severity` aggregation for any issue
list whose severities come from the source's three labels. -/
theorem overallSeverity_spec (L : List Issue)
    (hcl : ∀ i ∈ L, i.severity = "Low" ∨ i.severity = "Medium" ∨ i.severity = "High") :
    (overallSeverity L = "High" ↔ ∃ i ∈ L, i.severity = "High") ∧
    (overallSeverity L = "Medium" ↔
      ((¬ ∃ i ∈ L, i.severity = "High") ∧ ∃ i ∈ L, i.severity = "Medium")) ∧
    (overallSeverity L = "Low" ↔
      ((¬ ∃ i ∈ L, i.severity = "High") ∧ ¬ ∃ i ∈ L, i.severity = "Medium")) := by
  have hof : overallSeverity L
      = (if maxSeverityOf L ≥ 3 then "High"
         else if maxSeverityOf L ≥ 2 then "Medium" else "Low") := rfl
  have hmem_score : maxSeverityOf L ≥ 1 → ∃ i ∈ L, severityScore i.severity = maxSeverityOf L := by
    intro h1
    have hne : L.map (fun i => severityScore i.severity) ≠ [] := by
      intro hc
      have : maxSeverityOf L = 0 := by
        unfold maxSeverityOf
        rw [hc]
        rfl
      omega
    have := pyListMax_mem _ hne
    obtain ⟨i, hi, hsc⟩ := List.mem_map.mp this
    exact ⟨i, hi, hsc⟩
  have hhigh : maxSeverityOf L ≥ 3 ↔ ∃ i ∈ L, i.severity = "High" := by
    constructor
    · intro h3
      obtain ⟨i, hi, hsc⟩ := hmem_score (by omega)
      refine ⟨i, hi, ?_⟩
      rcases hcl i hi with h | h | h
      · rw [h] at hsc
        simp [severityScore] at hsc
        omega
      · rw [h] at hsc
        simp [severityScore] at hsc
        omega
      · exact h
    · rintro ⟨i, hi, hs⟩
      have : severityScore i.severity = 3 := by rw [hs]; rfl
      have hle := le_pyListMax (L.map (fun i => severityScore i.severity))
        (severityScore i.severity) (List.mem_map_of_mem _ hi)
      unfold maxSeverityOf
      omega
  have hmed : maxSeverityOf L ≥ 2 ∧ ¬ maxSeverityOf L ≥ 3 ↔
      ((¬ ∃ i ∈ L, i.severity = "High") ∧ ∃ i ∈ L, i.severity = "Medium") := by
    constructor
    · rintro ⟨h2, h3⟩
      refine ⟨fun hc => h3 (hhigh.mpr hc), ?_⟩
      obtain ⟨i, hi, hsc⟩ := hmem_score (by omega)
      refine ⟨i, hi, ?_⟩
      rcases hcl i hi with h | h | h
      · rw [h] at hsc
        simp [severityScore] at hsc
        omega
      · exact h
      · exfalso
        apply h3
        exact hhigh.mpr ⟨i, hi, h⟩
    · rintro ⟨hnh, i, hi, hs⟩
      have h2 : severityScore i.severity = 2 := by rw [hs]; rfl
      have hle := le_pyListMax (L.map (fun i => severityScore i.severity))
        (severityScore i.severity) (List.mem_map_of_mem _ hi)
      refine ⟨by unfold maxSeverityOf; omega, fun h3 => hnh (hhigh.mp h3)⟩
  have hlow : maxSeverityOf L ≤ 1 ↔
      ((¬ ∃ i ∈ L, i.severity = "High") ∧ ¬ ∃ i ∈ L, i.severity = "Medium") := by
    constructor
    · intro h1
      constructor
      · intro hc
        have := hhigh.mpr hc
        omega
      · rintro ⟨i, hi, hs⟩
        have h2 : severityScore i.severity = 2 := by rw [hs]; rfl
        have hle := le_pyListMax (L.map (fun i => severityScore i.severity))
          (severityScore i.severity) (List.mem_map_of_mem _ hi)
        unfold maxSeverityOf at h1
        omega
    · rintro ⟨hnh, hnm⟩
      unfold maxSeverityOf
      refine pyListMax_le _ 1 ?_
      intro x hx
      obtain ⟨i, hi, rfl⟩ := List.mem_map.mp hx
      rcases hcl i hi with h | h | h
      · rw [h]; simp [severityScore]
      · exact absurd ⟨i, hi, h⟩ hnm
      · exact absurd ⟨i, hi, h⟩ hnh
  refine ⟨?_, ?_, ?_⟩
  · rw [hof]
    by_cases h3 : maxSeverityOf L ≥ 3
    · rw [if_pos h3]
      exact iff_of_true rfl (hhigh.mp h3)
    · rw [if_neg h3]
      constructor
      · intro hcontra
        by_cases h2 : maxSeverityOf L ≥ 2 <;> simp [h2] at hcontra
      · intro hc
        exact absurd (hhigh.mpr hc) h3
  · rw [hof]
    by_cases h3 : maxSeverityOf L ≥ 3
    · rw [if_pos h3]
      constructor
      · intro hcontra
        simp at hcontra
      · rintro ⟨hnh, _⟩
        exact absurd (hhigh.mp h3) hnh
    · rw [if_neg h3]
      by_cases h2 : maxSeverityOf L ≥ 2
      · rw [if_pos h2]
        exact iff_of_true rfl (hmed.mp ⟨h2, h3⟩)
      · rw [if_neg h2]
        constructor
        · intro hcontra
          simp at hcontra
        · intro hc
          exact absurd (hmed.mpr hc).1 h2
  · rw [hof]
    by_cases h3 : maxSeverityOf L ≥ 3
    · rw [if_pos h3]
      constructor
      · intro hcontra
        simp at hcontra
      · rintro ⟨hnh, _⟩
        exact absurd (hhigh.mp h3) hnh
    · rw [if_neg h3]
      by_cases h2 : maxSeverityOf L ≥ 2
      · rw [if_pos h2]
        constructor
        · intro hcontra
          simp at hcontra
        · intro hc
          have := hlow.mpr hc
          omega
      · rw [if_neg h2]
        exact iff_of_true rfl (hlow.mp (by omega))

/-- C3: the `overall_severity` of `analyze_document` is "High" iff some
produced issue is High; "Medium" iff none is High but some is Medium; and
"Low" otherwise (including the empty issue list). -/
theorem c3_overall_severity_iff (text : List Char) (dt : String) :
    ((analyze_document text dt).overall_severity = "High" ↔
      ∃ i ∈ (analyze_document text dt).issues, i.severity = "High") ∧
    ((analyze_document text dt).overall_severity = "Medium" ↔
      ((¬ ∃ i ∈ (analyze_document text dt).issues, i.severity = "High") ∧
        ∃ i ∈ (analyze_document text dt).issues, i.severity = "Medium")) ∧
    ((analyze_document text dt).overall_severity = "Low" ↔
      ((¬ ∃ i ∈ (analyze_document text dt).issues, i.severity = "High") ∧
        ¬ ∃ i ∈ (analyze_document text dt).issues, i.severity = "Medium")) := by
  have hov : (analyze_document text dt).overall_severity
      = overallSeverity (allIssues text dt) := rfl
  have his : (analyze_document text dt).issues = allIssues text dt := rfl
  rw [hov, his]
  exact overallSeverity_spec (allIssues text dt) (allIssues_severity_closure text dt)

theorem dictAppend_lookD (t : String) : ∀ (d : List (String × List Issue)) (k : String) (x : Issue),
    (dlookup (dictAppend d k x) t).getD []
      = (dlookup d t).getD [] ++ (if t = k then [x] else []) := by
  intro d
  induction d with
  | nil =>
      intro k x
      by_cases hkt : k = t
      · rw [show dlookup (dictAppend [] k x) t = some [x] from by simp [dictAppend, dlookup, hkt]]
        rw [if_pos hkt.symm]
        simp [dlookup]
      · have htk : ¬ t = k := fun h => hkt h.symm
        rw [show dlookup (dictAppend [] k x) t = none from by simp [dictAppend, dlookup, hkt]]
        rw [if_neg htk]
        simp [dlookup]
  | cons p rest ih =>
      intro k x
      obtain ⟨k', v⟩ := p
      by_cases hk : k' = k
      · rw [show dictAppend ((k', v) :: rest) k x = (k', v ++ [x]) :: rest from by
          simp [dictAppend, hk]]
        by_cases ht : k' = t
        · rw [show dlookup ((k', v ++ [x]) :: rest) t = some (v ++ [x]) from by
            simp [dlookup, ht]]
          rw [show dlookup ((k', v) :: rest) t = some v from by simp [dlookup, ht]]
          rw [if_pos (ht.symm.trans hk)]
          simp
        · have htk : ¬ t = k := fun h => ht (hk.trans h.symm)
          rw [show dlookup ((k', v ++ [x]) :: rest) t = dlookup rest t from by
            simp [dlookup, ht]]
          rw [show dlookup ((k', v) :: rest) t = dlookup rest t from by simp [dlookup, ht]]
          rw [if_neg htk]
          simp
      · rw [show dictAppend ((k', v) :: rest) k x = (k', v) :: dictAppend rest k x from by
          simp [dictAppend, hk]]
        by_cases ht : k' = t
        · rw [show dlookup ((k', v) :: dictAppend rest k x) t = some v from by
            simp [dlookup, ht]]
          rw [show dlookup ((k', v) :: rest) t = some v from by simp [dlookup, ht]]
          rw [if_neg (fun h => hk (ht.trans h))]
          simp
        · rw [show dlookup ((k', v) :: dictAppend rest k x) t = dlookup (dictAppend rest k x) t
            from by simp [dlookup, ht]]
          rw [show dlookup ((k', v) :: rest) t = dlookup rest t from by simp [dlookup, ht]]
          exact ih k x

theorem groupBy_lookD (t : String) : ∀ (l : List Issue) (d : List (String × List Issue)),
    (dlookup (l.foldl (fun d i => dictAppend d i.type i) d) t).getD []
      = (dlookup d t).getD [] ++ l.filter (fun i => decide (i.type = t)) := by
  intro l
  induction l with
  | nil => intro d; simp
  | cons i l ih =>
      intro d
      rw [List.foldl_cons, ih, dictAppend_lookD, List.filter_cons]
      by_cases ht : i.type = t
      · simp [ht]
      · have hne : ¬ t = i.type := fun h => ht h.symm
        simp [ht, hne]

theorem analyze_buckets_eq_filter (text : List Char) (dt : String) (t : String) :
    (dlookup (analyze_document text dt).issues_by_type t).getD []
      = (analyze_document text dt).issues.filter (fun i => decide (i.type = t)) := by
  have h1 : (analyze_document text dt).issues_by_type
      = groupByType (allIssues text dt) := rfl
  have h2 : (analyze_document text dt).issues = allIssues text dt := rfl
  rw [h1, h2, groupByType]
  rw [groupBy_lookD]
  simp [dlookup]

/-- C9: internal consistency of `analyze_document`: `total_issues` is the
length of `issues`; `issues_by_type` maps every type to exactly the issues
of that type in original order (so the buckets partition the issue list,
with an entry present exactly for occurring types); and each summary count
equals the number of issues of the corresponding type. -/
theorem c9_analysis_internal_consistency (text : List Char) (dt : String) :
    (analyze_document text dt).total_issues = (analyze_document text dt).issues.length ∧
    (∀ t, (dlookup (analyze_document text dt).issues_by_type t).getD []
        = (analyze_document text dt).issues.filter (fun i => decide (i.type = t))) ∧
    (∀ t, (∃ i ∈ (analyze_document text dt).issues, i.type = t) →
      dlookup (analyze_document text dt).issues_by_type t
        = some ((analyze_document text dt).issues.filter (fun i => decide (i.type = t)))) ∧
    (dlookup (analyze_document text dt).summary "jurisdiction_issues").getD 0
        = ((analyze_document text dt).issues.filter
            (fun i => decide (i.type = "jurisdiction_issue"))).length ∧
    (dlookup (analyze_document text dt).summary "missing_clauses").getD 0
        = ((analyze_document text dt).issues.filter
            (fun i => decide (i.type = "missing_clause"))).length ∧
    (dlookup (analyze_document text dt).summary "ambiguous_language").getD 0
        = ((analyze_document text dt).issues.filter
            (fun i => decide (i.type = "ambiguous_language"))).length ∧
    (dlookup (analyze_document text dt).summary "missing_signatures").getD 0
        = ((analyze_document text dt).issues.filter
            (fun i => decide (i.type = "missing_signatures"))).length ∧
    (dlookup (analyze_document text dt).summary "incomplete_info").getD 0
        = ((analyze_document text dt).issues.filter
            (fun i => decide (i.type = "incomplete_info"))).length ∧
    (dlookup (analyze_document text dt).summary "non_compliant_structures").getD 0
        = ((analyze_document text dt).issues.filter
            (fun i => decide (i.type = "non_compliant_structure"))).length ∧
    (dlookup (analyze_document text dt).summary "formatting_issues").getD 0
        = ((analyze_document text dt).issues.filter
            (fun i => decide (i.type = "formatting_issue"))).length := by
  refine ⟨rfl, analyze_buckets_eq_filter text dt, ?_, ?_, ?_, ?_, ?_, ?_, ?_, ?_⟩
  · intro t ⟨i, hi, hit⟩
    have hgd := analyze_buckets_eq_filter text dt t
    have hne : (analyze_document text dt).issues.filter
        (fun i => decide (i.type = t)) ≠ [] := by
      intro hc
      have : i ∈ (analyze_document text dt).issues.filter (fun i => decide (i.type = t)) :=
        List.mem_filter.mpr ⟨hi, by simp [hit]⟩
      rw [hc] at this
      simp at this
    cases hdl : dlookup (analyze_document text dt).issues_by_type t with
    | none =>
        rw [hdl] at hgd
        simp only [Option.getD_none] at hgd
        exact absurd hgd.symm hne
    | some v =>
        rw [hdl] at hgd
        simp only [Option.getD_some] at hgd
        rw [hgd]
  all_goals
    have hs : (analyze_document text dt).summary = mkSummary (allIssues text dt) := rfl
  all_goals
    have h2 : (analyze_document text dt).issues = allIssues text dt := rfl
  all_goals rw [hs, h2, mkSummary]
  all_goals simp [dlookup]

theorem c9_analysis_internal_consistency_witness :
    (∃ i ∈ (analyze_document [] "Commercial Agreement").issues,
        i.type = "missing_signatures") ∧
      dlookup (analyze_document [] "Commercial Agreement").issues_by_type
          "missing_signatures"
        = some ((analyze_document [] "Commercial Agreement").issues.filter
            (fun i => decide (i.type = "missing_signatures"))) := by
  refine ⟨⟨missingSignaturesIssue, by decide, rfl⟩, ?_⟩
  exact (c9_analysis_internal_consistency [] "Commercial Agreement").2.2.1
    "missing_signatures" ⟨missingSignaturesIssue, by decide, rfl⟩

/-- C6 counterexample: on the empty extracted text the analyzer does NOT
report zero issues — the presence checks fire (one missing-signatures and
two formatting issues), so `total_issues` is 3, not 0. -/
theorem c6_empty_text_counterexample :
    (analyze_document [] "Commercial Agreement").total_issues ≠ 0 := by
  decide

/-- C6 (amended): on the empty extracted text `analyze_document` completes
(totality) and every pattern-scanning check degrades to zero issues; but the
presence checks still fire, so the issue list is exactly the missing-clause
issues of the document type followed by the single missing-signatures issue
and the two formatting issues. -/
theorem c6_empty_text_amended (dt : String) :
    check_jurisdiction_issues [] = [] ∧
    check_ambiguous_language [] = [] ∧
    check_incomplete_info [] = [] ∧
    check_non_compliant_structures [] = [] ∧
    (analyze_document [] dt).issues
      = check_missing_clauses [] dt
          ++ [missingSignaturesIssue] ++ [fmtStructureIssue, fmtNumberingIssue] := by
  refine ⟨by decide, by decide, by decide, by decide, ?_⟩
  have h : (analyze_document [] dt).issues = allIssues [] dt := rfl
  rw [h, allIssues]
  rw [show check_jurisdiction_issues [] = [] from by decide,
      show check_ambiguous_language [] = [] from by decide,
      show check_missing_signatures [] = [missingSignaturesIssue] from by decide,
      show check_incomplete_info [] = [] from by decide,
      show check_non_compliant_structures [] = [] from by decide,
      show check_formatting_issues [] = [fmtStructureIssue, fmtNumberingIssue] from by decide]
  simp

/-- C7: the missing-signatures check is a presence check: exactly one
High-severity missing_signatures issue when no signature-indicator pattern
matches anywhere in the (lowered) text, zero issues when any matches — in
particular any text containing "signed by" yields zero. -/
theorem c7_missing_signatures_presence (text : List Char) :
    ((∃ r ∈ signature_res, ∃ a n, RMatch r (((lowerStr text).drop a).take n)) →
      check_missing_signatures text = []) ∧
    ((¬ ∃ r ∈ signature_res, ∃ a n, RMatch r (((lowerStr text).drop a).take n)) →
      check_missing_signatures text = [missingSignaturesIssue]) ∧
    missingSignaturesIssue.severity = "High" ∧
    missingSignaturesIssue.type = "missing_signatures" ∧
    (∀ pre post, check_missing_signatures (pre ++ "signed by".toList ++ post) = []) := by
  have hsearch : ∀ s : List Char, (signature_res.any (fun r => reSearch r s) = true) ↔
      ∃ r ∈ signature_res, ∃ a n, RMatch r ((s.drop a).take n) := by
    intro s
    rw [List.any_eq_true]
    constructor
    · rintro ⟨r, hr, htrue⟩
      exact ⟨r, hr, (reSearch_iff r s).mp htrue⟩
    · rintro ⟨r, hr, hex⟩
      exact ⟨r, hr, (reSearch_iff r s).mpr hex⟩
  have hphrase : RMatch signedByRE ("signed by".toList) := by
    have h9 : ("signed by".toList).length ∈ reMatches signedByRE ("signed by".toList) := by
      decide
    have hs := reMatches_sound signedByRE ("signed by".toList) _ h9
    rw [List.take_length] at hs
    exact hs.2
  refine ⟨?_, ?_, rfl, rfl, ?_⟩
  · intro hex
    simp only [check_missing_signatures]
    rw [if_pos ((hsearch (lowerStr text)).mpr hex)]
  · intro hnex
    simp only [check_missing_signatures]
    rw [if_neg (fun hc => hnex ((hsearch (lowerStr text)).mp hc))]
  · intro pre post
    have hlow : lowerStr (pre ++ "signed by".toList ++ post)
        = lowerStr pre ++ "signed by".toList ++ lowerStr post := by
      unfold lowerStr
      rw [List.map_append, List.map_append]
      rw [show List.map Char.toLower "signed by".toList = "signed by".toList from by decide]
    have hex : ∃ r ∈ signature_res, ∃ a n,
        RMatch r (((lowerStr (pre ++ "signed by".toList ++ post)).drop a).take n) := by
      refine ⟨signedByRE, by simp [signature_res], (lowerStr pre).length,
        ("signed by".toList).length, ?_⟩
      rw [hlow, List.append_assoc, List.drop_left, List.take_left]
      exact hphrase
    simp only [check_missing_signatures]
    rw [if_pos ((hsearch (lowerStr (pre ++ "signed by".toList ++ post))).mpr hex)]

theorem c7_missing_signatures_presence_witness :
    check_missing_signatures ([] ++ "signed by".toList ++ []) = [] :=
  (c7_missing_signatures_presence ([] ++ "signed by".toList ++ [])).2.2.2.2 [] []

/-- C8: any text containing "governed by UAE Federal Courts" makes
`analyze_document` produce at least one High-severity jurisdiction_issue
whose location records a character-offset span that matches one of the
jurisdiction patterns. -/
theorem c8_jurisdiction_issue_on_uae_federal_courts (pre post : List Char) (dt : String) :
    ∃ i ∈ (analyze_document
        (pre ++ "governed by UAE Federal Courts".toList ++ post) dt).issues,
      i.type = "jurisdiction_issue" ∧ i.severity = "High" ∧
      ∃ a n, i.location = some (posString a (a + n)) ∧
        ∃ r ∈ jurisdiction_res,
          RMatch r (((lowerStr (pre ++ "governed by UAE Federal Courts".toList ++ post)).drop
            a).take n) := by
  have hlow : lowerStr (pre ++ "governed by UAE Federal Courts".toList ++ post)
      = lowerStr pre ++ "governed by uae federal courts".toList ++ lowerStr post := by
    unfold lowerStr
    rw [List.map_append, List.map_append]
    rw [show List.map Char.toLower "governed by UAE Federal Courts".toList
        = "governed by uae federal courts".toList from by decide]
  have hsplitphrase : ("governed by uae federal courts".toList : List Char)
      = "governed by ".toList ++ "uae federal courts".toList := by decide
  have hlen12 : (lowerStr pre ++ "governed by ".toList).length
      = (lowerStr pre).length + 12 := by
    rw [List.length_append]
    rfl
  have hdrop : (lowerStr (pre ++ "governed by UAE Federal Courts".toList ++ post)).drop
      ((lowerStr pre).length + 12) = "uae federal courts".toList ++ lowerStr post := by
    rw [hlow, hsplitphrase,
      ← List.append_assoc (lowerStr pre) "governed by ".toList "uae federal courts".toList,
      List.append_assoc (lowerStr pre ++ "governed by ".toList) "uae federal courts".toList
        (lowerStr post),
      List.drop_left' hlen12]
  have hm : RMatch juriRE1 ("uae federal courts".toList) := by
    have h18 : ("uae federal courts".toList).length
        ∈ reMatches juriRE1 ("uae federal courts".toList) := by decide
    have hs := reMatches_sound juriRE1 ("uae federal courts".toList) _ h18
    rw [List.take_length] at hs
    exact hs.2
  have hmem : ("uae federal courts".toList).length
      ∈ reMatches juriRE1 ("uae federal courts".toList ++ lowerStr post) :=
    reMatches_complete hm _
  have hne : findIter juriRE1
      (lowerStr (pre ++ "governed by UAE Federal Courts".toList ++ post)) ≠ [] := by
    apply findIterAux_ne_nil juriRE1 _ _ _ (le_refl _)
    refine ⟨(lowerStr pre).length + 12, ?_, ?_⟩
    · rw [hlow]
      simp only [List.length_append]
      rw [show ("governed by uae federal courts".toList : List Char).length = 30 from by decide]
      omega
    · rw [hdrop]
      exact List.ne_nil_of_mem hmem
  obtain ⟨ab, hab⟩ := List.exists_mem_of_ne_nil _ hne
  obtain ⟨a, b⟩ := ab
  obtain ⟨n, hb, _, hmatch⟩ := findIterAux_spans juriRE1 _ _ _ a b hab
  have hsound := reMatches_sound juriRE1
    ((lowerStr (pre ++ "governed by UAE Federal Courts".toList ++ post)).drop (a - 0)) n hmatch
  refine ⟨mkJurisdictionIssue (a, b), ?_, rfl, rfl, a, n, ?_, juriRE1,
    by simp [jurisdiction_res], ?_⟩
  · have hiss : (analyze_document
        (pre ++ "governed by UAE Federal Courts".toList ++ post) dt).issues
        = allIssues (pre ++ "governed by UAE Federal Courts".toList ++ post) dt := rfl
    rw [hiss, allIssues]
    refine List.mem_append_left _ (List.mem_append_left _ ?_)
    refine List.mem_append_left _ (List.mem_append_left _ ?_)
    refine List.mem_append_left _ (List.mem_append_left _ ?_)
    simp only [check_jurisdiction_issues, List.mem_flatMap]
    refine ⟨juriRE1, by simp [jurisdiction_res], ?_⟩
    exact List.mem_map_of_mem _ hab
  · rw [← hb]
    rfl
  · have hr := hsound.2
    rw [Nat.sub_zero] at hr
    exact hr

theorem foldl_append_eq_flatMap {α β : Type} (g : α → List β) :
    ∀ (l : List α) (acc : List β),
      l.foldl (fun acc x => acc ++ g x) acc = acc ++ l.flatMap g := by
  intro l
  induction l with
  | nil => intro acc; simp
  | cons x l ih =>
      intro acc
      rw [List.foldl_cons, ih, List.flatMap_cons, List.append_assoc]

/-- C5: when a process was detected (non-empty name, as the detector always
produces), the report's `missing_document` is the head of the missing list
(empty string when the list is empty), and `issues_found` flattens every
issue of every analyzed document in order — one entry per issue, tagged with
the document's type and with "General" substituted for an absent location —
so its length is the sum of the per-document issue counts. -/
theorem c5_report_flattening (results : Results)
    (hproc : results.process_detected ≠ "") :
    (generate_structured_report results).missing_document
        = results.missing_documents.headD "" ∧
    (generate_structured_report results).issues_found
        = results.documents_analyzed.flatMap
            (fun d => d.red_flag_analysis.issues.map (mkReportIssue d.document_type)) ∧
    (generate_structured_report results).issues_found.length
        = (results.documents_analyzed.map
            (fun d => d.red_flag_analysis.issues.length)).sum ∧
    (∀ d ∈ results.documents_analyzed, ∀ i ∈ d.red_flag_analysis.issues,
      mkReportIssue d.document_type i ∈ (generate_structured_report results).issues_found ∧
        (mkReportIssue d.document_type i).document = d.document_type ∧
        (mkReportIssue d.document_type i).sectionLabel = i.location.getD "General") := by
  have hmd : (generate_structured_report results).missing_document
      = if results.process_detected ≠ "" then
          (match results.missing_documents with
           | [] => ""
           | m :: _ => m)
        else "" := rfl
  have hif : (generate_structured_report results).issues_found
      = results.documents_analyzed.foldl
          (fun acc d => acc ++ d.red_flag_analysis.issues.map (mkReportIssue d.document_type))
          [] := rfl
  have hflat : (generate_structured_report results).issues_found
      = results.documents_analyzed.flatMap
          (fun d => d.red_flag_analysis.issues.map (mkReportIssue d.document_type)) := by
    rw [hif, foldl_append_eq_flatMap]
    simp
  refine ⟨?_, hflat, ?_, ?_⟩
  · rw [hmd, if_pos hproc]
    cases results.missing_documents with
    | nil => rfl
    | cons m ms => rfl
  · rw [hflat, List.length_flatMap]
    have hmapeq : List.map
        (List.length ∘ fun d : DocResult =>
          List.map (mkReportIssue d.document_type) d.red_flag_analysis.issues)
        results.documents_analyzed
        = List.map (fun d : DocResult => d.red_flag_analysis.issues.length)
            results.documents_analyzed := by
      apply List.map_congr_left
      intro d _
      simp [Function.comp, List.length_map]
    rw [hmapeq]
  · intro d hd i hi
    refine ⟨?_, rfl, rfl⟩
    rw [hflat]
    rw [List.mem_flatMap]
    exact ⟨d, hd, List.mem_map_of_mem _ hi⟩

/-- A two-document batch with 2 and 3 issues, used to instantiate C5. -/
def sampleIssue (n : Nat) : Issue :=
  { type := "incomplete_info", severity := "Medium", description := Nat.repr n,
    location := none, suggestion := "", adgm_reference := "" }

def sampleResults : Results :=
  { process_detected := "Company Incorporation"
    documents_analyzed :=
      [{ file_name := "a.docx"
         document_type := "Articles of Association"
         red_flag_analysis :=
           { document_type := "Articles of Association", total_issues := 2,
             overall_severity := "Medium", issues := [sampleIssue 1, sampleIssue 2],
             issues_by_type := [], summary := [] } },
       { file_name := "b.docx"
         document_type := "Memorandum of Association"
         red_flag_analysis :=
           { document_type := "Memorandum of Association", total_issues := 3,
             overall_severity := "Medium",
             issues := [sampleIssue 3, sampleIssue 4, sampleIssue 5],
             issues_by_type := [], summary := [] } }]
    missing_documents := ["Incorporation Application", "UBO Declaration"] }

theorem c5_report_flattening_witness :
    sampleResults.process_detected ≠ "" ∧
      (generate_structured_report sampleResults).issues_found.length = 2 + 3 ∧
      (generate_structured_report sampleResults).missing_document
        = "Incorporation Application" := by
  have h := c5_report_flattening sampleResults (by decide)
  refine ⟨by decide, ?_, ?_⟩
  · rw [h.2.2.1]
    rfl
  · rw [h.1]
    rfl
